import Mathlib

/-!
Verification development for the fks_engine service (src/src/main.py, with
src/src/_impl.py a simplified duplicate of the same logic).

Prices are modelled as rationals: every arithmetic fact proved here is about
the exact field operations the Python code performs; no claim below depends on
binary floating-point rounding (the one exact equality, equity = 1.0 on an
all-warm-up run, multiplies only the literal 1.0 and so is exact in float64 as
well).

Dates travel through the code as `x.get("date")`, which may be absent, so they
are modelled as `Option String`.
-/

namespace FksEngine

/-- A signal action, `"BUY"` or `"SELL"` in the Python dicts. -/
inductive Action where
  | BUY
  | SELL
deriving DecidableEq

/-- One emitted signal event: `{"date": date, "action": ..., "price": price}`. -/
structure SignalEvent where
  date : Option String
  action : Action
  price : ℚ
deriving DecidableEq

/--
`sma(series, w)` from `main.py` lines 120-128: a running-sum sliding window.
`s += v`; once `i >= w` the element leaving the window is subtracted; the
output holds `s / w` when `i >= w - 1` and `None` (here `none`) before that.
`smaAux` carries the original series (for the `series[i - w]` lookup), the
remaining suffix, the current index and the running sum.
-/
def smaAux (orig : List ℚ) (w : Nat) : List ℚ → Nat → ℚ → List (Option ℚ)
  | [], _, _ => []
  | v :: rest, i, s =>
    let s1 := s + v
    let s2 := if w ≤ i then s1 - orig.getD (i - w) 0 else s1
    (if w - 1 ≤ i then some (s2 / (w : ℚ)) else none) :: smaAux orig w rest (i + 1) s2

/-- The moving average series: `sma(series, w)` in the source. -/
def sma (series : List ℚ) (w : Nat) : List (Option ℚ) :=
  smaAux series w series 0 0

/-- The mutable state of the chronological scan in `backtest`
(`pos`, `equity`, `trades`, `last_price`, `signals`). -/
structure ScanState where
  pos : Int
  equity : ℚ
  trades : Nat
  lastPrice : ℚ
  signals : List SignalEvent
deriving DecidableEq

/-- Initial scan state: `pos=0; equity=1.0; trades=0; last_price=closes[0]; signals=[]`
(`main.py` lines 131-135; the series is non-empty when this runs). -/
def initState (closes : List ℚ) : ScanState :=
  ⟨0, 1, 0, closes.headD 0, []⟩

/-- One bar of the scan: the close, its date label, and the fast/slow moving
averages at that index. -/
structure Bar where
  price : ℚ
  date : Option String
  fast : Option ℚ
  slow : Option ℚ
deriving DecidableEq

/-- A bar is past warm-up when both averages are defined
(the `if f is None or s is None: continue` test, negated). -/
def barDefined (b : Bar) : Bool :=
  b.fast.isSome && b.slow.isSome

/--
The crossover part of one loop iteration (`main.py` lines 143-150):
`if pos <= 0 and f > s:` go long, count a trade, append a BUY;
`elif pos >= 0 and f < s:` go short, count a trade, append a SELL;
otherwise the state is unchanged.
-/
def crossStep (st : ScanState) (f s : ℚ) (price : ℚ) (date : Option String) : ScanState :=
  if st.pos ≤ 0 ∧ s < f then
    { st with
        pos := 1,
        trades := st.trades + 1,
        signals := st.signals ++ [⟨date, Action.BUY, price⟩] }
  else if 0 ≤ st.pos ∧ f < s then
    { st with
        pos := -1,
        trades := st.trades + 1,
        signals := st.signals ++ [⟨date, Action.SELL, price⟩] }
  else st

/--
The mark-to-market part of one loop iteration (`main.py` lines 152-154):
`ret = (price - last_price) / last_price if last_price else 0.0`;
`equity *= (1 + pos * ret)`; `last_price = price`.
-/
def accrue (st : ScanState) (price : ℚ) : ScanState :=
  let ret := if st.lastPrice = 0 then 0 else (price - st.lastPrice) / st.lastPrice
  { st with
      equity := st.equity * (1 + st.pos * ret),
      lastPrice := price }

/--
One full loop iteration (`main.py` lines 136-154).  When either average is
`None` the Python `continue` skips the whole body, crossovers and accrual
alike; otherwise the crossover test runs and then equity is accrued.
-/
def scanStep (st : ScanState) (b : Bar) : ScanState :=
  match b.fast, b.slow with
  | some f, some s => accrue (crossStep st f s b.price b.date) b.price
  | _, _ => st

/-- Folding the scan over a list of bars (the `for i in range(len(closes))` loop). -/
def scanList (st : ScanState) : List Bar → ScanState
  | [] => st
  | b :: rest => scanList (scanStep st b) rest

/-- The bar at index `i`: `closes[i]`, `dates[i]`, `fast[i]`, `slow[i]`. -/
def mkBars (wf ws : Nat) (closes : List ℚ) (dates : List (Option String)) : List Bar :=
  (List.range closes.length).map fun i =>
    ⟨closes.getD i 0, dates.getD i none, (sma closes wf).getD i none, (sma closes ws).getD i none⟩

/-- The whole scan, with the moving-average windows as parameters. -/
def runScanW (wf ws : Nat) (closes : List ℚ) (dates : List (Option String)) : ScanState :=
  scanList (initState closes) (mkBars wf ws closes dates)

/-- The scan exactly as `backtest` runs it: `fast, slow = sma(closes, 10), sma(closes, 20)`. -/
def runScan (closes : List ℚ) (dates : List (Option String)) : ScanState :=
  runScanW 10 20 closes dates

/-- The last `n` elements of a list — Python `l[-n:]` for `n ≥ 1`. -/
def lastN (l : List α) (n : Nat) : List α :=
  l.drop (l.length - n)

/-! ### The transformer (forecast) adapter -/

/-- The parsed JSON body of a 2xx transformer response; each field is what the
`j.get(...)` lookups read, absent-tolerant. -/
structure TfBody where
  ok : Bool
  shape : Option String
  window : Option Nat
  horizon_pred : Option ℚ
  device : Option String
  y_tail : List ℚ
  regime_states_tail : List ℚ
  regime_last : Option ℚ
  confidence : Option ℚ
deriving DecidableEq

/-- The compact normalized summary built from a transformer body
(`main.py` lines 169-179): same fields, with `y_tail` cut to its last 3. -/
structure TfInfo where
  ok : Bool
  shape : Option String
  window_used : Option Nat
  horizon_pred : Option ℚ
  device : Option String
  y_tail : List ℚ
  regime_states_tail : List ℚ
  regime_last : Option ℚ
  confidence : Option ℚ
deriving DecidableEq

/-- Normalization of a parsed body into the compact summary. -/
def mkTfInfo (j : TfBody) : TfInfo :=
  ⟨j.ok, j.shape, j.window, j.horizon_pred, j.device, lastN j.y_tail 3,
   j.regime_states_tail, j.regime_last, j.confidence⟩

/-- Every possible outcome of the `requests.post(.../predict)` call, five
classes: a transport exception (`exn`); a non-2xx status (`httpError`); a 2xx
status whose body fails to parse, `tf.json()` raising inside the `try`
(`malformed`); a 2xx body that parses as JSON but whose shape makes the
summary-building raise — a non-dict body making `j.get` raise, or a
non-sliceable `y_tail` making `[-3:]` raise (`badShape`); and a 2xx parsed
dict body whose fields extract normally (`ok`).  A `badShape` body is not a
`TfBody`, so that constructor carries no payload. -/
inductive TfOutcome where
  | exn
  | httpError (status : Nat)
  | malformed
  | badShape
  | ok (body : TfBody)
deriving DecidableEq

/-- What `backtest` extracts from the transformer call (`main.py` lines
157-183): `tf_ok` and the `tf_info` dict, which stays empty (`none`) on every
failure path.  On `exn` and `malformed` the exception fires before
`tf_ok = True` (line 168); on `badShape` it fires while building `tf_info`
(lines 169-179), after `tf_ok = True`, but `backtest`'s `except` handler
(line 183) resets `tf_ok = False`, so all four failure classes end with
`tf_ok = False` and `tf_info = {}` here. -/
def normalizeTf : TfOutcome → Bool × Option TfInfo
  | TfOutcome.ok j => (true, some (mkTfInfo j))
  | TfOutcome.exn => (false, none)
  | TfOutcome.httpError _ => (false, none)
  | TfOutcome.malformed => (false, none)
  | TfOutcome.badShape => (false, none)

/-! ### Rows, cache, endpoints -/

/-- One row of the data-service payload; `close` and `date` are `x.get(...)`
lookups and may be absent. -/
structure Row where
  date : Option String
  close : Option ℚ
deriving DecidableEq

/-- Outcome of the data-service fetch: either the `try` block raised
(connection error, `raise_for_status`, or a JSON parse failure), or it
produced a row list (already run through `payload.get("data") or []`). -/
inductive FetchResult where
  | exn
  | ok (rows : List Row)
deriving DecidableEq

/-- The `result` dict a successful `backtest` returns (`main.py` lines 185-195). -/
structure BacktestSummary where
  ok : Bool
  symbol : String
  trades : Nat
  equity : ℚ
  tf_ok : Bool
  transformer : Option TfInfo
  n : Nat
  last_date : Option String
  signals_tail : List SignalEvent
deriving DecidableEq

/-- The raw `resp` dict kept by `forecast` (`main.py` lines 256-282): the
parsed body on success, `{"ok": False, "status": ...}` on a non-2xx status,
`{"ok": False, "error": ...}` when the `try` block raised. -/
inductive TfRaw where
  | body (j : TfBody)
  | httpFail (status : Nat)
  | exnFail
deriving DecidableEq

/-- `bool(resp.get("ok", False))` on the raw transformer response. -/
def TfRaw.okField : TfRaw → Bool
  | TfRaw.body j => j.ok
  | _ => false

/-- The envelope a successful `forecast` returns (`main.py` lines 284-293). -/
structure ForecastEnvelope where
  ok : Bool
  symbol : String
  n : Nat
  last_date : Option String
  window : Int
  tf_ok : Bool
  transformer : Option TfInfo
  transformer_raw : TfRaw
deriving DecidableEq

/-- A cached summary is whichever result dict was stored — `backtest` and
`forecast` write different shapes into the same `_last_signals` slot. -/
inductive Summary where
  | backtest (s : BacktestSummary)
  | forecast (s : ForecastEnvelope)
deriving DecidableEq

/-- One `_last_signals[symbol]` entry: `{"signals": signals, "summary": result}`. -/
structure CacheEntry where
  signals : List SignalEvent
  summary : Summary
deriving DecidableEq

/-- The `_last_signals` module-level dict, as a map from symbol to entry. -/
def SignalCache : Type :=
  String → Option CacheEntry

/-- `_last_signals[symbol] = {"signals": signals, "summary": summary}`. -/
def cachePut (c : SignalCache) (symbol : String) (signals : List SignalEvent)
    (summary : Summary) : SignalCache :=
  fun k => if k = symbol then some ⟨signals, summary⟩ else c k

/-- `_last_signals.get(symbol)`. -/
def cacheGet (c : SignalCache) (symbol : String) : Option CacheEntry :=
  c symbol

/-- The empty cache (the dict at module load). -/
def emptyCache : SignalCache :=
  fun _ => none

/-- Response of the `backtest` endpoint: the 502 data-service failure, the
400 `"no data"` failure, or the 200 result dict. -/
inductive BacktestResp where
  | fetchError
  | noData
  | ok (s : BacktestSummary)
deriving DecidableEq

/-- `closes = [float(x.get("close", 0)) for x in rows]`. -/
def closesOf (rows : List Row) : List ℚ :=
  rows.map fun x => x.close.getD 0

/-- `dates = [x.get("date") for x in rows]`. -/
def datesOf (rows : List Row) : List (Option String) :=
  rows.map fun x => x.date

/-- The `result` dict `backtest` builds on the success path
(`main.py` lines 185-195). -/
def backtestSummaryOf (symbol : String) (rows : List Row) (tf : TfOutcome) : BacktestSummary :=
  ⟨true, symbol, (runScan (closesOf rows) (datesOf rows)).trades,
   (runScan (closesOf rows) (datesOf rows)).equity, (normalizeTf tf).1, (normalizeTf tf).2,
   rows.length, (rows.getLastD ⟨none, none⟩).date,
   lastN (runScan (closesOf rows) (datesOf rows)).signals 5⟩

/--
The `backtest` endpoint (`main.py` lines 85-213), with the two network calls
passed in as their outcomes.  On a fetch exception it returns the 502 error;
on an empty row list the 400 error; otherwise it runs the crossover scan,
normalizes the transformer outcome, builds the result dict, and writes the
full signal list plus the result into `_last_signals[symbol]`.  (The optional
LLM commentary only adds a decorative text field and is not modelled.)
-/
def backtestEndpoint (cache : SignalCache) (symbol : String) (fetch : FetchResult)
    (tf : TfOutcome) : BacktestResp × SignalCache :=
  match fetch with
  | FetchResult.exn => (BacktestResp.fetchError, cache)
  | FetchResult.ok rows =>
    if rows.isEmpty then (BacktestResp.noData, cache)
    else
      (BacktestResp.ok (backtestSummaryOf symbol rows tf),
       cachePut cache symbol (runScan (closesOf rows) (datesOf rows)).signals
         (Summary.backtest (backtestSummaryOf symbol rows tf)))

/-- `window = max(16, min(256, window))` in `forecast`. -/
def clampWindow (w : Int) : Int :=
  max 16 (min 256 w)

/-- Response of the `forecast` endpoint. -/
inductive ForecastResp where
  | fetchError
  | noData
  | ok (e : ForecastEnvelope)
deriving DecidableEq

/-- What `forecast` extracts from the transformer call (`main.py` lines
254-282): `tf_ok`, the compact `tf_info`, and the raw `resp`.  Unlike
`backtest`, `forecast` assigns `tf_ok = True` (line 266) *before* building
`tf_info` (lines 268-278), and its `except` handler (lines 281-282) only
overwrites `resp` — it does not reset `tf_ok`.  So on a `badShape` body the
exception raised while building `tf_info` leaves `tf_ok = True` with
`tf_info = {}`, and `resp` (which had been set to the parsed body at line
265) is overwritten with the `{"ok": False, "error": ...}` dict. -/
def forecastTf : TfOutcome → Bool × Option TfInfo × TfRaw
  | TfOutcome.ok j => (true, some (mkTfInfo j), TfRaw.body j)
  | TfOutcome.httpError st => (false, none, TfRaw.httpFail st)
  | TfOutcome.exn => (false, none, TfRaw.exnFail)
  | TfOutcome.malformed => (false, none, TfRaw.exnFail)
  | TfOutcome.badShape => (true, none, TfRaw.exnFail)

/-- The envelope `forecast` builds on the success path (`main.py` lines
284-293); its `ok` is `bool(resp.get("ok", False))` on the raw response. -/
def forecastEnvelopeOf (symbol : String) (window : Int) (rows : List Row)
    (tf : TfOutcome) : ForecastEnvelope :=
  ⟨(forecastTf tf).2.2.okField, symbol, rows.length, (rows.getLastD ⟨none, none⟩).date,
   clampWindow window, (forecastTf tf).1, (forecastTf tf).2.1, (forecastTf tf).2.2⟩

/--
The `forecast` endpoint (`main.py` lines 215-314): fetch errors and empty data
as in `backtest`; otherwise it clamps the window, calls the transformer,
builds the envelope, and writes a cache entry with an empty signal list.
-/
def forecastEndpoint (cache : SignalCache) (symbol : String) (window : Int)
    (fetch : FetchResult) (tf : TfOutcome) : ForecastResp × SignalCache :=
  match fetch with
  | FetchResult.exn => (ForecastResp.fetchError, cache)
  | FetchResult.ok rows =>
    if rows.isEmpty then (ForecastResp.noData, cache)
    else
      (ForecastResp.ok (forecastEnvelopeOf symbol window rows tf),
       cachePut cache symbol [] (Summary.forecast (forecastEnvelopeOf symbol window rows tf)))

/-- `limit = max(1, min(1000, limit))` in the `signals` endpoint. -/
def clampLimit (limit : Int) : Int :=
  max 1 (min 1000 limit)

/-- The trimmed transformer sub-dict the `signals` endpoint rebuilds
(`main.py` lines 343-351): `tf.get(...)` on the stored summary's transformer
dict, which is empty when the summary holds none. -/
structure TfView where
  ok : Bool
  shape : Option String
  horizon_pred : Option ℚ
  device : Option String
  window_used : Option Nat
  regime_last : Option ℚ
  confidence : Option ℚ
deriving DecidableEq

/-- Building the view from `summary.get("transformer", {})`. -/
def mkTfView : Option TfInfo → TfView
  | some t => ⟨t.ok, t.shape, t.horizon_pred, t.device, t.window_used, t.regime_last, t.confidence⟩
  | none => ⟨false, none, none, none, none, none, none⟩

/-- `summary.get("trades")` — present only on a backtest summary. -/
def Summary.tradesField : Summary → Option Nat
  | Summary.backtest s => some s.trades
  | Summary.forecast _ => none

/-- `summary.get("equity")` — present only on a backtest summary. -/
def Summary.equityField : Summary → Option ℚ
  | Summary.backtest s => some s.equity
  | Summary.forecast _ => none

/-- `summary.get("last_date")` — both summary shapes carry one. -/
def Summary.lastDateField : Summary → Option String
  | Summary.backtest s => s.last_date
  | Summary.forecast s => s.last_date

/-- `summary.get("n")`. -/
def Summary.nField : Summary → Option Nat
  | Summary.backtest s => some s.n
  | Summary.forecast s => some s.n

/-- `summary.get("transformer", {})`. -/
def Summary.transformerField : Summary → Option TfInfo
  | Summary.backtest s => s.transformer
  | Summary.forecast s => s.transformer

/-- The compact per-symbol view the `signals` endpoint returns
(`main.py` lines 335-352). -/
structure QueryView where
  ok : Bool
  symbol : String
  signals_tail : List SignalEvent
  trades : Option Nat
  equity : Option ℚ
  last_date : Option String
  n : Option Nat
  transformer : TfView
deriving DecidableEq

/-- Response of the `signals` endpoint when a symbol is given: 404 when the
symbol has no entry, otherwise the compact view. -/
inductive QueryResp where
  | notFound (symbol : String)
  | ok (v : QueryView)
deriving DecidableEq

/--
The symbol branch of the `signals` endpoint (`main.py` lines 317-353): clamp
`limit` into `[1, 1000]`, look the symbol up, 404 when absent, otherwise
return the view whose `signals_tail` is `entry.get("signals", [])[-limit:]`.
(The no-symbol branch, which returns the whole map similarly trimmed, is glue
over the same slicing and is not modelled separately.)
-/
def queryViewOf (symbol : String) (limit : Int) (entry : CacheEntry) : QueryView :=
  ⟨true, symbol, lastN entry.signals (clampLimit limit).toNat, entry.summary.tradesField,
   entry.summary.equityField, entry.summary.lastDateField, entry.summary.nField,
   mkTfView entry.summary.transformerField⟩

/-- Dispatch of the `signals` endpoint on the cache lookup. -/
def signalsEndpoint (cache : SignalCache) (symbol : String) (limit : Int) : QueryResp :=
  match cacheGet cache symbol with
  | none => QueryResp.notFound symbol
  | some entry => QueryResp.ok (queryViewOf symbol limit entry)

/--
The scan step as the specification sentence for claim C1 describes it: the
crossover logic still runs only on defined bars, but the accrual
(`ret`/`equity`/`last_price`) happens on *every* bar, warm-up included.  This
definition follows the spec's words, for comparison with `scanStep`, which
follows the code.
-/
def scanStepEveryBar (st : ScanState) (b : Bar) : ScanState :=
  match b.fast, b.slow with
  | some f, some s => accrue (crossStep st f s b.price b.date) b.price
  | _, _ => accrue st b.price

/-- Folding `scanStepEveryBar`, the spec-described variant of `scanList`. -/
def scanListEveryBar (st : ScanState) : List Bar → ScanState
  | [] => st
  | b :: rest => scanListEveryBar (scanStepEveryBar st b) rest

/-- The spec-described variant of `runScan` (windows 10 and 20). -/
def runScanEveryBar (closes : List ℚ) (dates : List (Option String)) : ScanState :=
  scanListEveryBar (initState closes) (mkBars 10 20 closes dates)

/-! ## Theorems -/

/-- A warm-up bar (either average undefined) leaves the scan state unchanged:
the Python `continue` skips crossovers and accrual alike. -/
theorem scanStep_of_not_defined (st : ScanState) (b : Bar) (h : barDefined b = false) :
    scanStep st b = st := by
  rcases b with ⟨p, d, f, s⟩
  cases f <;> cases s <;> simp_all [barDefined, scanStep]

/-- Appending bar lists splits the scan. -/
theorem scanList_append (st : ScanState) (l₁ l₂ : List Bar) :
    scanList st (l₁ ++ l₂) = scanList (scanList st l₁) l₂ := by
  induction l₁ generalizing st with
  | nil => rfl
  | cons b rest ih => simp [scanList, ih]

/-- The scan only ever acts on defined bars: filtering the warm-up bars out
does not change the result. -/
theorem scanList_filter_defined (st : ScanState) (l : List Bar) :
    scanList st l = scanList st (l.filter barDefined) := by
  induction l generalizing st with
  | nil => rfl
  | cons b rest ih =>
    by_cases hb : barDefined b
    · simp [scanList, List.filter_cons, hb, ih]
    · have hb' : barDefined b = false := by simpa using hb
      simp [scanList, List.filter_cons, hb', scanStep_of_not_defined st b hb', ih]

/--
C1 counterexample.  The claim says equity is accrued and `last_price` updated
on every bar, warm-up included.  The code's `continue` skips warm-up bars
entirely: on the two-bar series `[1, 2]` (all bars are warm-up for the 20-bar
window) `last_price` is still `closes[0] = 1` at the end, not the last close;
and on `[1, ..., 20]` the final equity is `20` (the first defined bar's return
is measured against `closes[0] = 1`), while accruing on every bar as the claim
states would give `20/19`.
-/
theorem C1_counterexample :
    (runScan [1, 2] [none, none]).lastPrice = 1 ∧
    (runScan [1, 2] [none, none]).lastPrice ≠ 2 ∧
    (runScan [1, 2, 3, 4, 5, 6, 7, 8, 9, 10, 11, 12, 13, 14, 15, 16, 17, 18, 19, 20]
        (List.replicate 20 none)).equity = 20 ∧
    (runScanEveryBar [1, 2, 3, 4, 5, 6, 7, 8, 9, 10, 11, 12, 13, 14, 15, 16, 17, 18, 19, 20]
        (List.replicate 20 none)).equity = 20 / 19 := by
  refine ⟨by decide, by decide, ?_, ?_⟩
  · norm_num [runScan, runScanW, mkBars, initState, scanList, scanStep, crossStep, accrue,
      sma, smaAux, List.range_succ, List.replicate]
  · norm_num [runScanEveryBar, mkBars, initState, scanListEveryBar, scanStepEveryBar,
      crossStep, accrue, sma, smaAux, List.range_succ, List.replicate]

/--
C1 amended: equity is accrued and `last_price` updated only on bars where both
averages are defined; a warm-up bar leaves the whole scan state (including
`last_price`) unchanged, so the scan equals the scan over the defined bars
only, and at the first defined bar `last_price` still equals `closes[0]`.  On
a defined bar the accrual is as the claim states: `ret = (price - last_price)
/ last_price` (`0` when `last_price = 0`), `equity` is multiplied by
`(1 + position * ret)` with the position updated by the crossover rule first,
and `last_price` becomes the bar's close.
-/
theorem C1_equity_accrued_only_on_defined_bars (st : ScanState) (l : List Bar) (p : ℚ)
    (closes : List ℚ) (dates : List (Option String)) (pre post : List Bar)
    (hsplit : mkBars 10 20 closes dates = pre ++ post)
    (hpre : ∀ b ∈ pre, barDefined b = false) :
    scanList st l = scanList st (l.filter barDefined) ∧
    (∀ b, barDefined b = false → scanStep st b = st) ∧
    (∀ f s price date,
      scanStep st ⟨price, date, some f, some s⟩ = accrue (crossStep st f s price date) price) ∧
    (accrue st p).lastPrice = p ∧
    (accrue st p).equity =
      st.equity * (1 + st.pos * (if st.lastPrice = 0 then 0 else (p - st.lastPrice) / st.lastPrice)) ∧
    scanList (initState closes) pre = initState closes ∧
    (scanList (initState closes) pre).lastPrice = closes.headD 0 := by
  have hflt : pre.filter barDefined = [] := by
    simp only [List.filter_eq_nil_iff]
    intro b hb
    simp [hpre b hb]
  have hpreinit : scanList (initState closes) pre = initState closes := by
    rw [scanList_filter_defined, hflt]
    rfl
  refine ⟨scanList_filter_defined st l, fun b hb => scanStep_of_not_defined st b hb,
    fun f s price date => rfl, rfl, rfl, hpreinit, ?_⟩
  rw [hpreinit]
  rfl

/-- Witness for C1's amended theorem at a concrete split of a concrete series. -/
theorem C1_amended_witness :
    scanList (initState [1, 2]) (mkBars 10 20 [1, 2] [none, none]) = initState [1, 2] ∧
    (scanList (initState [1, 2]) (mkBars 10 20 [1, 2] [none, none])).lastPrice =
      ([1, 2] : List ℚ).headD 0 :=
  ((C1_equity_accrued_only_on_defined_bars (initState [1, 2])
    (mkBars 10 20 [1, 2] [none, none]) 0 [1, 2] [none, none]
    (mkBars 10 20 [1, 2] [none, none]) [] (by decide) (by decide)).2.2.2.2.2 : _)

/-- Sum of `series[a..b)`. -/
def sumFromTo (series : List ℚ) (a b : Nat) : ℚ :=
  ((series.drop a).take (b - a)).sum

theorem sumFromTo_self (series : List ℚ) (a : Nat) : sumFromTo series a a = 0 := by
  simp [sumFromTo]

/-- Extending the summed range one index to the right. -/
theorem sumFromTo_succ_right (series : List ℚ) (a b : Nat) (hab : a ≤ b)
    (hb : b < series.length) :
    sumFromTo series a (b + 1) = sumFromTo series a b + series.getD b 0 := by
  have h1 : b + 1 - a = (b - a) + 1 := by omega
  have h2 : (series.drop a)[b - a]? = series[b]? := by
    rw [List.getElem?_drop]
    congr 1
    omega
  rw [sumFromTo, h1, List.take_succ, List.sum_append, h2,
    List.getElem?_eq_getElem hb]
  simp [sumFromTo, List.getD_eq_getElem?_getD, List.getElem?_eq_getElem hb]

/-- Removing the leftmost index from the summed range. -/
theorem sumFromTo_succ_left (series : List ℚ) (a b : Nat) (hab : a < b)
    (ha : a < series.length) :
    sumFromTo series a b = series.getD a 0 + sumFromTo series (a + 1) b := by
  have h1 : series.drop a = series[a] :: series.drop (a + 1) := List.drop_eq_getElem_cons ha
  have h2 : b - a = (b - (a + 1)) + 1 := by omega
  rw [sumFromTo, h1, h2, List.take_succ_cons, List.sum_cons, sumFromTo,
    List.getD_eq_getElem?_getD, List.getElem?_eq_getElem ha]
  rfl

/--
The running-sum invariant of `smaAux`: entered at index `i` with the remaining
suffix of the series and with `s` equal to the sum of the previous (at most)
`w` elements, the output at offset `j` is defined exactly when index `i + j`
has consumed `w` samples, and then holds the window sum divided by `w`.
-/
theorem smaAux_getD (orig : List ℚ) (w : Nat) (hw : 1 ≤ w) :
    ∀ (rest : List ℚ) (i : Nat) (s : ℚ), rest = orig.drop i →
      s = sumFromTo orig (i - w) i →
      ∀ j, j < rest.length →
        (smaAux orig w rest i s).getD j none =
          if w ≤ i + j + 1 then some (sumFromTo orig (i + j + 1 - w) (i + j + 1) / w)
          else none := by
  intro rest
  induction rest with
  | nil => intro i s _ _ j hj; exact absurd hj (by simp)
  | cons v r ih =>
    intro i s hrest hs j hj
    have hi : i < orig.length := by
      by_contra hle
      push_neg at hle
      rw [List.drop_eq_nil_of_le hle] at hrest
      cases hrest
    rw [List.drop_eq_getElem_cons hi] at hrest
    injection hrest with h1 h2
    have hv : v = orig.getD i 0 := by
      rw [List.getD_eq_getElem?_getD, List.getElem?_eq_getElem hi, Option.getD_some]
      exact h1
    have hr : r = orig.drop (i + 1) := h2
    have hs1 : s + v = sumFromTo orig (i - w) (i + 1) := by
      rw [hs, hv, sumFromTo_succ_right orig (i - w) i (by omega) hi]
    have hs2 : (if w ≤ i then s + v - orig.getD (i - w) 0 else s + v) =
        sumFromTo orig (i + 1 - w) (i + 1) := by
      by_cases hwi : w ≤ i
      · have hlt : i - w < i + 1 := by omega
        have hwl : i - w < orig.length := by omega
        rw [if_pos hwi, hs1, sumFromTo_succ_left orig (i - w) (i + 1) hlt hwl]
        have : i - w + 1 = i + 1 - w := by omega
        rw [this]
        ring
      · have h0 : i - w = 0 := by omega
        have h0' : i + 1 - w = 0 := by omega
        rw [if_neg hwi, hs1, h0, h0']
    cases j with
    | zero =>
      simp only [smaAux, List.getD_cons_zero]
      rw [hs2]
      by_cases hdef : w - 1 ≤ i
      · rw [if_pos hdef, if_pos (by omega)]
      · rw [if_neg hdef, if_neg (by omega)]
    | succ j' =>
      have hj' : j' < r.length := by
        simp only [List.length_cons] at hj
        omega
      have hrec := ih (i + 1) (if w ≤ i then s + v - orig.getD (i - w) 0 else s + v)
        hr hs2 j' hj'
      simp only [smaAux, List.getD_cons_succ]
      rw [hrec]
      have harith : i + 1 + j' + 1 = i + (j' + 1) + 1 := by omega
      rw [harith]

/-- `smaAux` output length equals its input suffix length. -/
theorem smaAux_length (orig : List ℚ) (w : Nat) :
    ∀ (rest : List ℚ) (i : Nat) (s : ℚ), (smaAux orig w rest i s).length = rest.length := by
  intro rest
  induction rest with
  | nil => intro i s; rfl
  | cons v r ih => intro i s; simp [smaAux, ih]

/--
C3: for every series and every window `w ≥ 1`, the moving average preserves
the series length; the value at index `i` is defined iff `i ≥ w - 1`, and when
defined it is the arithmetic mean of the `w` most recent elements, indices
`i - w + 1` through `i`.
-/
theorem C3_sma_defined_iff_window_filled (series : List ℚ) (w : Nat) (hw : 1 ≤ w) :
    (sma series w).length = series.length ∧
    ∀ i, i < series.length →
      (((sma series w).getD i none ≠ none) ↔ w - 1 ≤ i) ∧
      (w - 1 ≤ i →
        (sma series w).getD i none =
          some ((((series.drop (i + 1 - w)).take w).sum) / w)) := by
  have hlen : (sma series w).length = series.length := smaAux_length series w series 0 0
  refine ⟨hlen, fun i hi => ?_⟩
  have hchar : (sma series w).getD i none =
      if w ≤ i + 1 then some (sumFromTo series (i + 1 - w) (i + 1) / (w : ℚ)) else none := by
    have h := smaAux_getD series w hw series 0 0 rfl (by simp [sumFromTo]) i hi
    simpa [sma, Nat.zero_add] using h
  have hwin : w - 1 ≤ i → sumFromTo series (i + 1 - w) (i + 1) =
      ((series.drop (i + 1 - w)).take w).sum := by
    intro hdef
    have : i + 1 - (i + 1 - w) = w := by omega
    rw [sumFromTo, this]
  constructor
  · constructor
    · intro hne
      by_contra hlt
      rw [hchar, if_neg (by omega)] at hne
      exact hne rfl
    · intro hdef
      rw [hchar, if_pos (by omega)]
      simp
  · intro hdef
    rw [hchar, if_pos (by omega), hwin hdef]

/-- Witness for C3 at `window = 3` on `[1, 2, 3]`: index 1 is undefined and
index 2 is the mean of indices 0-2. -/
theorem C3_witness :
    (((sma [1, 2, 3] 3).getD 1 none ≠ none) ↔ 3 - 1 ≤ 1) ∧
    (sma [1, 2, 3] 3).getD 2 none =
      some (((([1, 2, 3] : List ℚ).drop (2 + 1 - 3)).take 3).sum / 3) :=
  ⟨((C3_sma_defined_iff_window_filled [1, 2, 3] 3 (by decide)).2 1 (by decide)).1,
   ((C3_sma_defined_iff_window_filled [1, 2, 3] 3 (by decide)).2 2 (by decide)).2 (by decide)⟩

/-- The action of the most recent signal, when any. -/
def lastAction (st : ScanState) : Option Action :=
  st.signals.getLast?.map fun e => e.action

/-- The invariant the scan maintains: the position is one of `-1, 0, 1`; the
trade count equals the signal count; signal actions alternate; no signal has
been emitted while flat; and the most recent signal matches the position. -/
def ScanInv (st : ScanState) : Prop :=
  (st.pos = 0 ∨ st.pos = 1 ∨ st.pos = -1) ∧
  st.trades = st.signals.length ∧
  List.Chain' (fun a b => a.action ≠ b.action) st.signals ∧
  (st.pos = 0 → st.signals = []) ∧
  (st.pos = 1 → lastAction st = some Action.BUY) ∧
  (st.pos = -1 → lastAction st = some Action.SELL)

theorem initState_inv (closes : List ℚ) : ScanInv (initState closes) :=
  ⟨Or.inl rfl, rfl, List.chain'_nil, fun _ => rfl,
   fun h => by simp [initState] at h, fun h => by simp [initState] at h⟩

theorem crossStep_inv (st : ScanState) (f s price : ℚ) (date : Option String)
    (h : ScanInv st) : ScanInv (crossStep st f s price date) := by
  obtain ⟨hpos, htr, hch, h0, h1, hm1⟩ := h
  by_cases hbuy : st.pos ≤ 0 ∧ s < f
  · have hnotone : st.pos = 0 ∨ st.pos = -1 := by
      rcases hpos with hp | hp | hp
      · exact Or.inl hp
      · omega
      · exact Or.inr hp
    have hlast : ∀ x ∈ st.signals.getLast?,
        ∀ y ∈ ([(⟨date, Action.BUY, price⟩ : SignalEvent)]).head?, x.action ≠ y.action := by
      intro x hx y hy
      simp only [List.head?_cons, Option.mem_def, Option.some.injEq] at hy
      subst hy
      rcases hnotone with hp | hp
      · rw [h0 hp] at hx
        simp at hx
      · have hsell := hm1 hp
        obtain ⟨e, he, hact⟩ := Option.map_eq_some'.mp hsell
        rw [Option.mem_def] at hx
        have hxe : x = e := by
          rw [hx] at he
          exact Option.some.inj he
        subst hxe
        rw [hact]
        simp
    have hstep : crossStep st f s price date =
        { st with
            pos := 1,
            trades := st.trades + 1,
            signals := st.signals ++ [⟨date, Action.BUY, price⟩] } := by
      rw [crossStep, if_pos hbuy]
    rw [hstep]
    refine ⟨Or.inr (Or.inl rfl), by simp [htr],
      List.Chain'.append hch (List.chain'_singleton _) hlast,
      fun hzero => ?_, fun _ => ?_, fun hneg => ?_⟩
    · simp at hzero
    · simp [lastAction, List.getLast?_concat]
    · simp at hneg
  · by_cases hsell : 0 ≤ st.pos ∧ f < s
    · have hnotneg : st.pos = 0 ∨ st.pos = 1 := by
        rcases hpos with hp | hp | hp
        · exact Or.inl hp
        · exact Or.inr hp
        · omega
      have hlast : ∀ x ∈ st.signals.getLast?,
          ∀ y ∈ ([(⟨date, Action.SELL, price⟩ : SignalEvent)]).head?, x.action ≠ y.action := by
        intro x hx y hy
        simp only [List.head?_cons, Option.mem_def, Option.some.injEq] at hy
        subst hy
        rcases hnotneg with hp | hp
        · rw [h0 hp] at hx
          simp at hx
        · have hb := h1 hp
          obtain ⟨e, he, hact⟩ := Option.map_eq_some'.mp hb
          rw [Option.mem_def] at hx
          have hxe : x = e := by
            rw [hx] at he
            exact Option.some.inj he
          subst hxe
          rw [hact]
          simp
      have hstep : crossStep st f s price date =
          { st with
              pos := -1,
              trades := st.trades + 1,
              signals := st.signals ++ [⟨date, Action.SELL, price⟩] } := by
        rw [crossStep, if_neg hbuy, if_pos hsell]
      rw [hstep]
      refine ⟨Or.inr (Or.inr rfl), by simp [htr],
        List.Chain'.append hch (List.chain'_singleton _) hlast,
        fun hzero => ?_, fun hone => ?_, fun _ => ?_⟩
      · simp at hzero
      · simp at hone
      · simp [lastAction, List.getLast?_concat]
    · have hstep : crossStep st f s price date = st := by
        rw [crossStep, if_neg hbuy, if_neg hsell]
      rw [hstep]
      exact ⟨hpos, htr, hch, h0, h1, hm1⟩

theorem accrue_inv (st : ScanState) (price : ℚ) (h : ScanInv st) :
    ScanInv (accrue st price) :=
  h

theorem scanStep_inv (st : ScanState) (b : Bar) (h : ScanInv st) :
    ScanInv (scanStep st b) := by
  rcases b with ⟨p, d, f, s⟩
  cases f with
  | none => exact h
  | some fv =>
    cases s with
    | none => exact h
    | some sv => exact accrue_inv _ _ (crossStep_inv st fv sv p d h)

theorem scanList_inv (st : ScanState) (l : List Bar) (h : ScanInv st) :
    ScanInv (scanList st l) := by
  induction l generalizing st with
  | nil => exact h
  | cons b rest ih => exact ih _ (scanStep_inv st b h)

/--
C2: for every non-empty close series, the scan's signal list has
`len(signals) ≤ trades` and consecutive signal actions strictly alternate —
no two consecutive BUYs and no two consecutive SELLs.
-/
theorem C2_signal_count_and_alternation (closes : List ℚ) (dates : List (Option String))
    (h : closes ≠ []) :
    (runScan closes dates).signals.length ≤ (runScan closes dates).trades ∧
    List.Chain' (fun a b => a.action ≠ b.action) (runScan closes dates).signals := by
  have hinv := scanList_inv (initState closes) (mkBars 10 20 closes dates)
    (initState_inv closes)
  exact ⟨le_of_eq hinv.2.1.symm, hinv.2.2.1⟩

/-- Witness for C2 on the three-bar series `[1, 2, 3]`. -/
theorem C2_witness :
    (runScan [1, 2, 3] [none, none, none]).signals.length ≤
      (runScan [1, 2, 3] [none, none, none]).trades ∧
    List.Chain' (fun a b => a.action ≠ b.action)
      (runScan [1, 2, 3] [none, none, none]).signals :=
  C2_signal_count_and_alternation [1, 2, 3] [none, none, none] (by decide)

/--
C9: for every input series (and any pair of windows, in particular the fixed
10/20), the trade count equals the length of the full signal list — every
emitted signal increments `trades` by exactly one and nothing else does.
-/
theorem C9_trades_eq_signal_count (wf ws : Nat) (closes : List ℚ)
    (dates : List (Option String)) :
    (runScanW wf ws closes dates).trades = (runScanW wf ws closes dates).signals.length :=
  (scanList_inv (initState closes) (mkBars wf ws closes dates) (initState_inv closes)).2.1

/-- Before the window has filled (`i + 1 < w`), the moving average holds `None`. -/
theorem sma_getD_none (series : List ℚ) (w : Nat) (hw : 1 ≤ w) (j : Nat)
    (hj : j + 1 < w) : (sma series w).getD j none = none := by
  by_cases hjl : j < series.length
  · have h := smaAux_getD series w hw series 0 0 rfl (by simp [sumFromTo]) j hjl
    simp only [Nat.zero_add] at h
    rw [show sma series w = smaAux series w series 0 0 from rfl, h, if_neg (by omega)]
  · rw [List.getD_eq_getElem?_getD, List.getElem?_eq_none]
    · rfl
    · rw [show sma series w = smaAux series w series 0 0 from rfl, smaAux_length]
      omega

/-- On a series shorter than the slow window every bar is a warm-up bar, so
the whole scan leaves the initial state untouched. -/
theorem runScan_short_series (closes : List ℚ) (dates : List (Option String))
    (hlen : closes.length < 20) :
    runScan closes dates = initState closes := by
  rw [runScan, runScanW, scanList_filter_defined]
  have hnil : (mkBars 10 20 closes dates).filter barDefined = [] := by
    simp only [List.filter_eq_nil_iff]
    intro b hb
    simp only [mkBars, List.mem_map, List.mem_range] at hb
    obtain ⟨j, hj, hbj⟩ := hb
    have hslow : (sma closes 20).getD j none = none :=
      sma_getD_none closes 20 (by omega) j (by omega)
    rw [← hbj]
    simp only [List.getD_eq_getElem?_getD] at hslow
    simp [barDefined, hslow]
  rw [hnil]
  rfl

/--
C10: for every non-empty row list shorter than the slow window (fewer than 20
rows), every bar is a warm-up bar: the backtest succeeds and returns
`trades = 0`, `equity = 1.0` exactly, an empty `signals_tail`, and the full
signal list written to the cache is empty as well.
-/
theorem C10_short_series_trivial_backtest (cache : SignalCache) (symbol : String)
    (rows : List Row) (tf : TfOutcome) (hne : rows ≠ []) (hlen : rows.length < 20) :
    (backtestEndpoint cache symbol (FetchResult.ok rows) tf).1 =
      BacktestResp.ok (backtestSummaryOf symbol rows tf) ∧
    (backtestSummaryOf symbol rows tf).ok = true ∧
    (backtestSummaryOf symbol rows tf).trades = 0 ∧
    (backtestSummaryOf symbol rows tf).equity = 1 ∧
    (backtestSummaryOf symbol rows tf).signals_tail = [] ∧
    (runScan (closesOf rows) (datesOf rows)).signals = [] := by
  have hclen : (closesOf rows).length < 20 := by
    simpa [closesOf] using hlen
  have hscan := runScan_short_series (closesOf rows) (datesOf rows) hclen
  have hempty : rows.isEmpty = false := by simpa [List.isEmpty_iff] using hne
  refine ⟨by simp [backtestEndpoint, hempty], rfl, ?_, ?_, ?_, ?_⟩
  · simp [backtestSummaryOf, hscan, initState]
  · simp [backtestSummaryOf, hscan, initState]
  · simp [backtestSummaryOf, hscan, initState, lastN]
  · simp [hscan, initState]

/-- Witness for C10 at a concrete three-row fetch. -/
theorem C10_witness :
    (backtestEndpoint emptyCache "GC=F"
        (FetchResult.ok [⟨some "d0", some 5⟩, ⟨some "d1", some 6⟩, ⟨some "d2", some 7⟩])
        TfOutcome.exn).1 =
      BacktestResp.ok (backtestSummaryOf "GC=F"
        [⟨some "d0", some 5⟩, ⟨some "d1", some 6⟩, ⟨some "d2", some 7⟩] TfOutcome.exn) ∧
    (backtestSummaryOf "GC=F"
        [⟨some "d0", some 5⟩, ⟨some "d1", some 6⟩, ⟨some "d2", some 7⟩] TfOutcome.exn).ok =
      true ∧
    (backtestSummaryOf "GC=F"
        [⟨some "d0", some 5⟩, ⟨some "d1", some 6⟩, ⟨some "d2", some 7⟩] TfOutcome.exn).trades =
      0 ∧
    (backtestSummaryOf "GC=F"
        [⟨some "d0", some 5⟩, ⟨some "d1", some 6⟩, ⟨some "d2", some 7⟩] TfOutcome.exn).equity =
      1 ∧
    (backtestSummaryOf "GC=F"
        [⟨some "d0", some 5⟩, ⟨some "d1", some 6⟩, ⟨some "d2", some 7⟩]
        TfOutcome.exn).signals_tail = [] ∧
    (runScan (closesOf [⟨some "d0", some 5⟩, ⟨some "d1", some 6⟩, ⟨some "d2", some 7⟩])
        (datesOf [⟨some "d0", some 5⟩, ⟨some "d1", some 6⟩, ⟨some "d2", some 7⟩])).signals =
      [] :=
  C10_short_series_trivial_backtest emptyCache "GC=F"
    [⟨some "d0", some 5⟩, ⟨some "d1", some 6⟩, ⟨some "d2", some 7⟩] TfOutcome.exn
    (by decide) (by decide)

/-- Closed form of the moving average at an in-range index. -/
theorem sma_getD_eq (series : List ℚ) (w : Nat) (hw : 1 ≤ w) (j : Nat)
    (hj : j < series.length) :
    (sma series w).getD j none =
      if w ≤ j + 1 then some (sumFromTo series (j + 1 - w) (j + 1) / (w : ℚ)) else none := by
  have h := smaAux_getD series w hw series 0 0 rfl (by simp [sumFromTo]) j hj
  simpa [sma, Nat.zero_add] using h

/-- A two-element range sum. -/
theorem sumFromTo_two (series : List ℚ) (a : Nat) (ha : a + 1 < series.length) :
    sumFromTo series a (a + 2) = series.getD a 0 + series.getD (a + 1) 0 := by
  rw [sumFromTo_succ_left series a (a + 2) (by omega) (by omega),
    sumFromTo_succ_left series (a + 1) (a + 2) (by omega) (by omega),
    sumFromTo_self]
  ring

/-- A three-element range sum. -/
theorem sumFromTo_three (series : List ℚ) (a : Nat) (ha : a + 2 < series.length) :
    sumFromTo series a (a + 3) =
      series.getD a 0 + series.getD (a + 1) 0 + series.getD (a + 2) 0 := by
  rw [sumFromTo_succ_left series a (a + 3) (by omega) (by omega),
    show a + 3 = (a + 1) + 2 from by omega,
    sumFromTo_two series (a + 1) (by omega)]
  ring

/-- With the smaller sample below both larger ones, the three-sample mean is
below the two-sample mean of the recent pair. -/
theorem mean3_lt_mean2 (x y z : ℚ) (hxy : x < y) (hxz : x < z) :
    (x + y + z) / 3 < (y + z) / 2 := by
  rw [div_lt_div_iff₀ (by norm_num) (by norm_num)]
  linarith

/-- Adjacent elements of a strictly increasing list, through `getD`. -/
theorem chain'_lt_getD (l : List ℚ) (h : List.Chain' (fun a b => a < b) l) (i : Nat)
    (hi : i + 1 < l.length) : l.getD i 0 < l.getD (i + 1) 0 := by
  have hg := List.chain'_iff_get.mp h i (by omega)
  rw [List.getD_eq_getElem?_getD, List.getD_eq_getElem?_getD,
    List.getElem?_eq_getElem (show i < l.length by omega),
    List.getElem?_eq_getElem hi]
  simpa [Option.getD_some, List.get_eq_getElem] using hg

/-- Once long, a scan over bars whose fast average stays above the slow one
never trades again: position, trade count and signals are frozen. -/
theorem scanList_long_frozen :
    ∀ l : List Bar, (∀ b ∈ l, ∀ f s, b.fast = some f → b.slow = some s → s < f) →
      ∀ st : ScanState, st.pos = 1 →
        (scanList st l).pos = 1 ∧ (scanList st l).trades = st.trades ∧
        (scanList st l).signals = st.signals := by
  intro l
  induction l with
  | nil => intro _ st h1; exact ⟨h1, rfl, rfl⟩
  | cons b rest ih =>
    intro hgt st h1
    have hrest : ∀ b' ∈ rest, ∀ f s, b'.fast = some f → b'.slow = some s → s < f :=
      fun b' hb' => hgt b' (List.mem_cons_of_mem b hb')
    have hstep : (scanStep st b).pos = 1 ∧ (scanStep st b).trades = st.trades ∧
        (scanStep st b).signals = st.signals := by
      rcases b with ⟨p, d, f, s⟩
      cases f with
      | none => exact ⟨h1, rfl, rfl⟩
      | some fv =>
        cases s with
        | none => exact ⟨h1, rfl, rfl⟩
        | some sv =>
          have hlt : sv < fv := hgt _ (List.mem_cons_self _ _) fv sv rfl rfl
          have hnb : ¬(st.pos ≤ 0 ∧ sv < fv) := by
            rw [h1]
            intro hc
            exact absurd hc.1 (by norm_num)
          have hnfs : ¬fv < sv := not_lt.mpr hlt.le
          simp [scanStep, crossStep, hnb, hnfs, accrue, h1]
    obtain ⟨hp, ht, hs⟩ := hstep
    have hres := ih hrest (scanStep st b) hp
    refine ⟨hres.1, ?_, ?_⟩
    · show (scanList (scanStep st b) rest).trades = st.trades
      rw [hres.2.1, ht]
    · show (scanList (scanStep st b) rest).signals = st.signals
      rw [hres.2.2, hs]

/-- From a flat start with no signals yet, a scan over bars whose fast average
stays above the slow one — with at least one bar past warm-up — emits exactly
one signal, a BUY, and counts exactly one trade. -/
theorem scanList_first_buy :
    ∀ l : List Bar, (∀ b ∈ l, ∀ f s, b.fast = some f → b.slow = some s → s < f) →
      (∃ b ∈ l, barDefined b = true) →
      ∀ st : ScanState, st.pos = 0 → st.signals = [] →
        (scanList st l).trades = st.trades + 1 ∧
        ∃ d p, (scanList st l).signals = [⟨d, Action.BUY, p⟩] := by
  intro l
  induction l with
  | nil =>
    intro _ hdef
    obtain ⟨b, hb, _⟩ := hdef
    cases hb
  | cons b rest ih =>
    intro hgt hdef st h0 hsig
    have hrest : ∀ b' ∈ rest, ∀ f s, b'.fast = some f → b'.slow = some s → s < f :=
      fun b' hb' => hgt b' (List.mem_cons_of_mem b hb')
    obtain ⟨p, d, f, s⟩ := b
    cases f with
    | none =>
      have hdef' : ∃ b' ∈ rest, barDefined b' = true := by
        obtain ⟨b', hb', hbd⟩ := hdef
        rcases List.mem_cons.mp hb' with heq | hmem
        · subst heq
          simp [barDefined] at hbd
        · exact ⟨b', hmem, hbd⟩
      have hskip : scanStep st ⟨p, d, none, s⟩ = st := rfl
      show (scanList (scanStep st ⟨p, d, none, s⟩) rest).trades = st.trades + 1 ∧ _
      rw [hskip]
      exact ih hrest hdef' st h0 hsig
    | some fv =>
      cases s with
      | none =>
        have hdef' : ∃ b' ∈ rest, barDefined b' = true := by
          obtain ⟨b', hb', hbd⟩ := hdef
          rcases List.mem_cons.mp hb' with heq | hmem
          · subst heq
            simp [barDefined] at hbd
          · exact ⟨b', hmem, hbd⟩
        have hskip : scanStep st ⟨p, d, some fv, none⟩ = st := rfl
        show (scanList (scanStep st ⟨p, d, some fv, none⟩) rest).trades = st.trades + 1 ∧ _
        rw [hskip]
        exact ih hrest hdef' st h0 hsig
      | some sv =>
        have hlt : sv < fv :=
          hgt ⟨p, d, some fv, some sv⟩ (List.mem_cons_self _ _) fv sv rfl rfl
        have hfire : crossStep st fv sv p d =
            { st with
                pos := 1,
                trades := st.trades + 1,
                signals := st.signals ++ [⟨d, Action.BUY, p⟩] } := by
          rw [crossStep, if_pos ⟨by rw [h0], hlt⟩]
        have hstep : scanStep st ⟨p, d, some fv, some sv⟩ =
            accrue { st with
              pos := 1,
              trades := st.trades + 1,
              signals := st.signals ++ [⟨d, Action.BUY, p⟩] } p := by
          show accrue (crossStep st fv sv p d) p = _
          rw [hfire]
        have hfrozen := scanList_long_frozen rest hrest
          (accrue { st with
            pos := 1,
            trades := st.trades + 1,
            signals := st.signals ++ [⟨d, Action.BUY, p⟩] } p) rfl
        have hkt := congrArg (fun st' => (scanList st' rest).trades) hstep
        have hks := congrArg (fun st' => (scanList st' rest).signals) hstep
        simp only at hkt hks
        refine ⟨?_, d, p, ?_⟩
        · show (scanList (scanStep st ⟨p, d, some fv, some sv⟩) rest).trades = st.trades + 1
          rw [hkt]
          exact hfrozen.2.1.trans rfl
        · show (scanList (scanStep st ⟨p, d, some fv, some sv⟩) rest).signals =
            [⟨d, Action.BUY, p⟩]
          rw [hks, hfrozen.2.2]
          show st.signals ++ [⟨d, Action.BUY, p⟩] = _
          rw [hsig]
          rfl

/--
C4 counterexample.  The claim's general statement — a strictly increasing
close series yields at least one BUY and exactly one trade — fails without a
length hypothesis: the strictly increasing two-bar series `[1, 2]` never fills
the slow window, so the scan emits nothing and `trades = 0`.
-/
theorem C4_counterexample :
    List.Chain' (fun a b : ℚ => a < b) [1, 2] ∧
    (runScanW 2 3 [1, 2] [some "0", some "1"]).trades = 0 ∧
    (runScanW 2 3 [1, 2] [some "0", some "1"]).signals = [] := by
  refine ⟨?_, by decide, by decide⟩
  norm_num [List.chain'_cons, List.chain'_singleton]

/--
C4 amended: with `fast_window = 2` and `slow_window = 3`, every strictly
increasing close series *long enough to fill the slow window* (at least 3
bars) produces exactly one trade, whose single signal is a BUY — hence at
least one BUY and zero SELL events.  The claim's concrete instance (closes
`[1..10]` with sequential date labels) is the witness below.
-/
theorem C4_strictly_increasing_single_buy (closes : List ℚ) (dates : List (Option String))
    (hmono : List.Chain' (fun a b => a < b) closes) (hlen : 3 ≤ closes.length) :
    (runScanW 2 3 closes dates).trades = 1 ∧
    ∃ d p, (runScanW 2 3 closes dates).signals = [⟨d, Action.BUY, p⟩] := by
  have hgt : ∀ b ∈ mkBars 2 3 closes dates, ∀ f s,
      b.fast = some f → b.slow = some s → s < f := by
    intro b hb f s hf hs
    simp only [mkBars, List.mem_map, List.mem_range] at hb
    obtain ⟨j, hj, hbj⟩ := hb
    subst hbj
    simp only at hf hs
    rw [sma_getD_eq closes 3 (by norm_num) j hj] at hs
    by_cases h3 : 3 ≤ j + 1
    · rw [if_pos h3] at hs
      rw [sma_getD_eq closes 2 (by norm_num) j hj, if_pos (by omega)] at hf
      have hfv := Option.some.inj hf
      have hsv := Option.some.inj hs
      obtain ⟨a, ha⟩ : ∃ a, j = a + 2 := ⟨j - 2, by omega⟩
      subst ha
      rw [show a + 2 + 1 - 2 = a + 1 from by omega,
        show a + 2 + 1 = (a + 1) + 2 from by omega,
        sumFromTo_two closes (a + 1) (by omega)] at hfv
      rw [show a + 2 + 1 - 3 = a from by omega,
        show a + 2 + 1 = a + 3 from by omega,
        sumFromTo_three closes a (by omega)] at hsv
      simp only [Nat.cast_ofNat] at hfv hsv
      have h01 : closes.getD a 0 < closes.getD (a + 1) 0 :=
        chain'_lt_getD closes hmono a (by omega)
      have h12 : closes.getD (a + 1) 0 < closes.getD (a + 2) 0 :=
        chain'_lt_getD closes hmono (a + 1) (by omega)
      rw [← hfv, ← hsv]
      exact mean3_lt_mean2 _ _ _ h01 (lt_trans h01 h12)
    · rw [if_neg h3] at hs
      cases hs
  have hdef : ∃ b ∈ mkBars 2 3 closes dates, barDefined b = true := by
    refine ⟨⟨closes.getD 2 0, dates.getD 2 none, (sma closes 2).getD 2 none,
      (sma closes 3).getD 2 none⟩, ?_, ?_⟩
    · simp only [mkBars, List.mem_map, List.mem_range]
      exact ⟨2, by omega, rfl⟩
    · rw [barDefined]
      simp only
      rw [sma_getD_eq closes 2 (by norm_num) 2 (by omega), if_pos (by norm_num),
        sma_getD_eq closes 3 (by norm_num) 2 (by omega), if_pos (by norm_num)]
      rfl
  have h := scanList_first_buy (mkBars 2 3 closes dates) hgt hdef (initState closes) rfl rfl
  exact ⟨by simpa using h.1, h.2⟩

/-- Witness for C4 on the claim's concrete input: closes `[1..10]`,
sequential date labels, `fast_window = 2`, `slow_window = 3`. -/
theorem C4_witness :
    (runScanW 2 3 [1, 2, 3, 4, 5, 6, 7, 8, 9, 10]
        [some "0", some "1", some "2", some "3", some "4", some "5", some "6", some "7",
         some "8", some "9"]).trades = 1 ∧
    ∃ d p, (runScanW 2 3 [1, 2, 3, 4, 5, 6, 7, 8, 9, 10]
        [some "0", some "1", some "2", some "3", some "4", some "5", some "6", some "7",
         some "8", some "9"]).signals = [⟨d, Action.BUY, p⟩] :=
  C4_strictly_increasing_single_buy [1, 2, 3, 4, 5, 6, 7, 8, 9, 10]
    [some "0", some "1", some "2", some "3", some "4", some "5", some "6", some "7",
     some "8", some "9"]
    (by norm_num [List.chain'_cons, List.chain'_singleton]) (by norm_num)

/--
C8: `SignalCache.put` followed immediately by `get` for the same symbol
returns exactly the stored `(signals, summary)` pair, unmodified.
-/
theorem C8_cache_put_get_roundtrip (c : SignalCache) (symbol : String)
    (signals : List SignalEvent) (summary : Summary) :
    cacheGet (cachePut c symbol signals summary) symbol = some ⟨signals, summary⟩ := by
  simp [cacheGet, cachePut]

/--
C5: when the backtest operation fails — the fetch raised, or the fetched row
list is empty — the endpoint returns the corresponding structured failure
(the 502 or the 400 response) and the cache is returned completely unchanged.
-/
theorem C5_backtest_errors_leave_cache_unchanged (cache : SignalCache) (symbol : String)
    (fetch : FetchResult) (tf : TfOutcome)
    (h : fetch = FetchResult.exn ∨ fetch = FetchResult.ok []) :
    ((backtestEndpoint cache symbol fetch tf).1 = BacktestResp.fetchError ∨
      (backtestEndpoint cache symbol fetch tf).1 = BacktestResp.noData) ∧
    (backtestEndpoint cache symbol fetch tf).2 = cache := by
  rcases h with h | h <;> subst h <;> simp [backtestEndpoint]

/-- Witness for C5 at the concrete exception outcome. -/
theorem C5_witness :
    ((backtestEndpoint emptyCache "GC=F" FetchResult.exn TfOutcome.exn).1 =
        BacktestResp.fetchError ∨
      (backtestEndpoint emptyCache "GC=F" FetchResult.exn TfOutcome.exn).1 =
        BacktestResp.noData) ∧
    (backtestEndpoint emptyCache "GC=F" FetchResult.exn TfOutcome.exn).2 = emptyCache :=
  C5_backtest_errors_leave_cache_unchanged emptyCache "GC=F" FetchResult.exn TfOutcome.exn
    (Or.inl rfl)

/--
C6 counterexample.  The claim says *every* failing predictor outcome —
including a malformed body — leaves the forecast operation's result with
`tf_ok = false`.  But `forecast` assigns `tf_ok = True` before building
`tf_info`, and its `except` handler does not reset it: on a 2xx body that
parses yet fails normalization (a non-dict body, a non-sliceable `y_tail`)
the returned envelope has `tf_ok = true` (with an empty transformer summary
and `ok = false`), refuting the claim at this concrete input.
-/
theorem C6_counterexample :
    (forecastEndpoint emptyCache "GC=F" 64 (FetchResult.ok [⟨some "d0", some 1⟩])
        TfOutcome.badShape).1 =
      ForecastResp.ok (forecastEnvelopeOf "GC=F" 64 [⟨some "d0", some 1⟩]
        TfOutcome.badShape) ∧
    (forecastEnvelopeOf "GC=F" 64 [⟨some "d0", some 1⟩] TfOutcome.badShape).tf_ok = true ∧
    (forecastEnvelopeOf "GC=F" 64 [⟨some "d0", some 1⟩] TfOutcome.badShape).tf_ok ≠ false ∧
    (forecastEnvelopeOf "GC=F" 64 [⟨some "d0", some 1⟩] TfOutcome.badShape).transformer =
      none ∧
    (forecastEnvelopeOf "GC=F" 64 [⟨some "d0", some 1⟩] TfOutcome.badShape).ok = false := by
  refine ⟨?_, rfl, by decide, rfl, rfl⟩
  simp [forecastEndpoint]

/--
C6 amended: no transformer outcome ever raises to the caller — both
operations always return their own complete result — and on every failing
outcome the transformer summary is absent and the backtest result has
`tf_ok = false` (its envelope keeping `ok = true`); the forecast envelope has
`ok = false` and `tf_ok = false` on a transport exception, a non-2xx status,
or an unparseable body, but `tf_ok = true` on the one malformed-body
subclass where a 2xx body parses and then fails normalization, because
`forecast` sets `tf_ok = True` before building the summary and its exception
handler does not reset it.
-/
theorem C6_transformer_soft_failure (cache : SignalCache) (symbol : String)
    (rows : List Row) (window : Int) (tf : TfOutcome)
    (hrows : rows ≠ []) (htf : ∀ j, tf ≠ TfOutcome.ok j) :
    normalizeTf tf = (false, none) ∧
    (∃ s, (backtestEndpoint cache symbol (FetchResult.ok rows) tf).1 = BacktestResp.ok s ∧
      s.ok = true ∧ s.tf_ok = false ∧ s.transformer = none) ∧
    (∃ e, (forecastEndpoint cache symbol window (FetchResult.ok rows) tf).1 =
        ForecastResp.ok e ∧
      e.transformer = none ∧ e.ok = false ∧
      (tf ≠ TfOutcome.badShape → e.tf_ok = false) ∧
      (tf = TfOutcome.badShape → e.tf_ok = true)) := by
  have hne : rows.isEmpty = false := by simpa [List.isEmpty_iff] using hrows
  have hnorm : normalizeTf tf = (false, none) := by
    cases tf with
    | ok j => exact absurd rfl (htf j)
    | exn => rfl
    | httpError st => rfl
    | malformed => rfl
    | badShape => rfl
  have hfc1 : tf ≠ TfOutcome.badShape → (forecastTf tf).1 = false := by
    intro hbs
    cases tf with
    | ok j => exact absurd rfl (htf j)
    | exn => rfl
    | httpError st => rfl
    | malformed => rfl
    | badShape => exact absurd rfl hbs
  have hfc1' : tf = TfOutcome.badShape → (forecastTf tf).1 = true := by
    intro hbs
    subst hbs
    rfl
  have hfc2 : (forecastTf tf).2.1 = none := by
    cases tf with
    | ok j => exact absurd rfl (htf j)
    | exn => rfl
    | httpError st => rfl
    | malformed => rfl
    | badShape => rfl
  have hfcok : (forecastTf tf).2.2.okField = false := by
    cases tf with
    | ok j => exact absurd rfl (htf j)
    | exn => rfl
    | httpError st => rfl
    | malformed => rfl
    | badShape => rfl
  refine ⟨hnorm, ⟨backtestSummaryOf symbol rows tf, ?_, rfl, ?_, ?_⟩,
    ⟨forecastEnvelopeOf symbol window rows tf, ?_, ?_, ?_, ?_, ?_⟩⟩
  · simp [backtestEndpoint, hne]
  · simp [backtestSummaryOf, hnorm]
  · simp [backtestSummaryOf, hnorm]
  · simp [forecastEndpoint, hne]
  · simpa [forecastEnvelopeOf] using hfc2
  · simpa [forecastEnvelopeOf] using hfcok
  · intro hbs
    simpa [forecastEnvelopeOf] using hfc1 hbs
  · intro hbs
    simpa [forecastEnvelopeOf] using hfc1' hbs

/-- Witness for C6's amended theorem at a one-row fetch and a transport
exception. -/
theorem C6_witness :
    normalizeTf TfOutcome.exn = (false, none) ∧
    (∃ s, (backtestEndpoint emptyCache "GC=F" (FetchResult.ok [⟨some "d0", some 1⟩])
        TfOutcome.exn).1 = BacktestResp.ok s ∧
      s.ok = true ∧ s.tf_ok = false ∧ s.transformer = none) ∧
    (∃ e, (forecastEndpoint emptyCache "GC=F" 64 (FetchResult.ok [⟨some "d0", some 1⟩])
        TfOutcome.exn).1 = ForecastResp.ok e ∧
      e.transformer = none ∧ e.ok = false ∧
      (TfOutcome.exn ≠ TfOutcome.badShape → e.tf_ok = false) ∧
      (TfOutcome.exn = TfOutcome.badShape → e.tf_ok = true)) :=
  C6_transformer_soft_failure emptyCache "GC=F" [⟨some "d0", some 1⟩] 64 TfOutcome.exn
    (by decide) (fun j h => TfOutcome.noConfusion h)

/--
C7: the signals query clamps `limit` into `[1, 1000]` before slicing
(`limit = 0` behaves as `1`, `limit = 5000` as `1000`) and returns the most
recent `limit` events: the tail (a suffix, so chronological order is
preserved) of the stored signal list, of length `min limit (stored length)`.
-/
theorem C7_signals_limit_clamped_tail (cache : SignalCache) (symbol : String)
    (limit : Int) (entry : CacheEntry) (h : cacheGet cache symbol = some entry) :
    clampLimit 0 = 1 ∧ clampLimit 5000 = 1000 ∧
    1 ≤ clampLimit limit ∧ clampLimit limit ≤ 1000 ∧
    ∃ v, signalsEndpoint cache symbol limit = QueryResp.ok v ∧
      v.signals_tail = entry.signals.drop (entry.signals.length - (clampLimit limit).toNat) ∧
      List.IsSuffix v.signals_tail entry.signals ∧
      v.signals_tail.length = min (clampLimit limit).toNat entry.signals.length := by
  refine ⟨rfl, rfl, le_max_left 1 _, ?_, queryViewOf symbol limit entry, ?_, rfl, ?_, ?_⟩
  · have h1000 : min 1000 limit ≤ 1000 := min_le_left _ _
    simp only [clampLimit, max_le_iff]
    exact ⟨by norm_num, h1000⟩
  · simp [signalsEndpoint, h]
  · exact List.drop_suffix _ _
  · simp only [queryViewOf, lastN, List.length_drop]
    omega

/-- Witness for C7 at a concrete two-signal cache entry and `limit = 5000`. -/
theorem C7_witness :
    clampLimit 0 = 1 ∧ clampLimit 5000 = 1000 ∧
    1 ≤ clampLimit 5000 ∧ clampLimit 5000 ≤ 1000 ∧
    ∃ v, signalsEndpoint
        (cachePut emptyCache "GC=F" [⟨some "d0", Action.BUY, 1⟩, ⟨some "d1", Action.SELL, 2⟩]
          (Summary.forecast ⟨false, "GC=F", 2, some "d1", 64, false, none, TfRaw.exnFail⟩))
        "GC=F" 5000 = QueryResp.ok v ∧
      v.signals_tail =
        ([⟨some "d0", Action.BUY, 1⟩, ⟨some "d1", Action.SELL, 2⟩] : List SignalEvent).drop
          (([⟨some "d0", Action.BUY, 1⟩, ⟨some "d1", Action.SELL, 2⟩] : List SignalEvent).length -
            (clampLimit 5000).toNat) ∧
      List.IsSuffix v.signals_tail
        [⟨some "d0", Action.BUY, 1⟩, ⟨some "d1", Action.SELL, 2⟩] ∧
      v.signals_tail.length =
        min (clampLimit 5000).toNat
          ([⟨some "d0", Action.BUY, 1⟩, ⟨some "d1", Action.SELL, 2⟩] : List SignalEvent).length :=
  C7_signals_limit_clamped_tail
    (cachePut emptyCache "GC=F" [⟨some "d0", Action.BUY, 1⟩, ⟨some "d1", Action.SELL, 2⟩]
      (Summary.forecast ⟨false, "GC=F", 2, some "d1", 64, false, none, TfRaw.exnFail⟩))
    "GC=F" 5000 ⟨[⟨some "d0", Action.BUY, 1⟩, ⟨some "d1", Action.SELL, 2⟩],
      Summary.forecast ⟨false, "GC=F", 2, some "d1", 64, false, none, TfRaw.exnFail⟩⟩
    (by decide)

end FksEngine
